import Mathlib

set_option maxRecDepth 8000

/-!
Verification of the single-flight balance cache in main.go of
solana-balance-api.

The development embeds the program at two levels of detail:

* a sequential, timed embedding of `getBalance` (main.go lines 166-195)
  and of the POST /api/get-balance handler (main.go lines 227-256),
  used for the TTL, batching, error-handling and lock-table claims;

* a small-step interleaving machine for N concurrent `getBalance`
  callers, used for the single-flight and timeout claims.  Each machine
  step is one atomic shared-state action of the Go code (a go-cache
  read, a sync.Map LoadOrStore, a mutex acquire, the upstream RPC, the
  cache write + unlock + return).

Times are natural numbers counted in seconds.  The go-cache library
(`balanceCache.Get`) returns an entry while `now ≤ expiresAt` and treats
it as absent once `now > expiresAt` (its expiry test is
`time.Now().UnixNano() > item.Expiration`); `Set(wallet, balance, 10s)`
stores `expiresAt = now + 10`.
-/

/-- TTL passed to `balanceCache.Set` (main.go line 192): 10 seconds. -/
def ttlSeconds : Nat := 10

/-- Per-wallet context budget in the handler (main.go line 238): 5 seconds. -/
def timeoutSeconds : Nat := 5

/-! ### Base58 public-key validation (solana.PublicKeyFromBase58) -/

/-- The base58 alphabet used by the key decoder (no 0, O, I, l). -/
def base58Alphabet : List Char :=
  "123456789ABCDEFGHJKLMNPQRSTUVWXYZabcdefghijkmnopqrstuvwxyz".toList

/-- Big-endian byte digits, with explicit fuel (structural recursion so
that the kernel can evaluate it); `fuel ≥ n` always suffices since
`n / 256 < n` for positive `n`. -/
def natBytesAux : Nat → Nat → List Nat
  | _, 0 => []
  | 0, _ + 1 => []
  | fuel + 1, m + 1 => natBytesAux fuel ((m + 1) / 256) ++ [(m + 1) % 256]

/-- Big-endian byte list of a natural number (empty for 0). -/
def natBytes (n : Nat) : List Nat :=
  natBytesAux n n

/-- Base58 decoding: every character must be in the alphabet; leading
'1' characters become leading zero bytes; the remainder is the
big-endian base-58 value. -/
def base58Decode (s : String) : Option (List Nat) :=
  let cs := s.toList
  if cs.all (fun c => base58Alphabet.contains c) then
    let val := cs.foldl
      (fun acc c => acc * 58 + ((base58Alphabet.findIdx? (fun x => x == c)).getD 0)) 0
    let zeros := (cs.takeWhile (fun c => c == '1')).length
    some (List.replicate zeros 0 ++ natBytes val)
  else
    none

/-- `solana.PublicKeyFromBase58` succeeds exactly when the string
decodes and the decoded byte string has length 32 (ed25519 key size). -/
def validKey (s : String) : Bool :=
  match base58Decode s with
  | some bs => bs.length == 32
  | none => false

/-- The system-program address: 32 '1' characters, decoding to 32 zero
bytes; a concrete wallet accepted by `validKey`. -/
def oneKey : String := "11111111111111111111111111111111"

/-! ### Errors and shared-state primitives -/

/-- The error classes `getBalance` can return: a failed
`PublicKeyFromBase58` parse (line 183), an upstream RPC error
(line 188), or the RPC surfacing the expired context deadline. -/
inductive GetErr where
  | invalidKey
  | upstreamErr
  | deadlineExceeded
deriving DecidableEq, Repr

instance : DecidableEq (Except GetErr Nat) := fun a b =>
  match a, b with
  | .ok x, .ok y =>
    if h : x = y then .isTrue (by rw [h]) else .isFalse (by intro hc; cases hc; exact h rfl)
  | .error x, .error y =>
    if h : x = y then .isTrue (by rw [h]) else .isFalse (by intro hc; cases hc; exact h rfl)
  | .ok _, .error _ => .isFalse (by intro hc; cases hc)
  | .error _, .ok _ => .isFalse (by intro hc; cases hc)

/-- Pointwise update of a string-keyed table. -/
def setFun {α : Type} (f : String → Option α) (k : String) (v : Option α) :
    String → Option α :=
  fun q => if q = k then v else f q

/-- `balanceCache.Get` at time `now`: a stored pair `(value, expiresAt)`
is returned while `now ≤ expiresAt` and treated as absent afterwards. -/
def hitVal (c : String → Option (Nat × Nat)) (w : String) (now : Nat) : Option Nat :=
  match c w with
  | some (v, e) => if now ≤ e then some v else none
  | none => none

/-- A Go context with optional deadline `dl` is expired once the clock
has reached the deadline. -/
def ctxExpired (now : Nat) (dl : Option Nat) : Bool :=
  match dl with
  | some t => t ≤ now
  | none => false

/-- Whether finishing at time `t` would overrun the deadline `dl`. -/
def beyond (dl : Option Nat) (t : Nat) : Bool :=
  match dl with
  | some dEnd => dEnd < t
  | none => false

/-- The time at which an upstream call that would naturally finish at
`t` actually returns under deadline `dl` (the RPC client aborts the
call at the deadline). -/
def upstreamEnd (dl : Option Nat) (t : Nat) : Nat :=
  match dl with
  | some dEnd => min dEnd t
  | none => t

/-! ### Sequential timed embedding of getBalance -/

/-- The shared mutable state touched by `getBalance`: the go-cache entry
table (`balanceCache`) and the set of wallets for which a mutex has been
inserted into `walletLocks` (main.go line 33). -/
structure SeqState where
  cache : String → Option (Nat × Nat)
  lockTable : List String

/-- The upstream resolver (`solanaClient.GetBalance`): a value per
wallet (`none` is an RPC failure) and a call duration in seconds. -/
structure Resolver where
  value : String → Option Nat
  dur : String → Nat

/-- `walletLocks.LoadOrStore(wallet, &sync.Mutex{})` (line 171): insert
a mutex for `w` if absent.  Entries are never removed. -/
def lockAcquire (st : SeqState) (w : String) : SeqState :=
  if w ∈ st.lockTable then st else { st with lockTable := w :: st.lockTable }

/-- Output of one sequential `getBalance` call: the returned value or
error, the shared state on return, the time at which the call returns,
and how many upstream RPC calls it issued. -/
structure SeqOut where
  result : Except GetErr Nat
  state : SeqState
  finish : Nat
  calls : Nat

/-- Sequential timed embedding of `getBalance` (main.go lines 166-195):
fast-path cache read; LoadOrStore + lock; re-check under the lock;
base58 validation; upstream call under the context deadline; on success
store with `expiresAt = finish + 10`; on failure store nothing.  The
per-key mutex is released before every return (deferred unlock). -/
def getBalanceSeq (R : Resolver) (st : SeqState) (now : Nat) (dl : Option Nat)
    (w : String) : SeqOut :=
  match hitVal st.cache w now with
  | some v => ⟨.ok v, st, now, 0⟩
  | none =>
    let st₁ := lockAcquire st w
    match hitVal st₁.cache w now with
    | some v => ⟨.ok v, st₁, now, 0⟩
    | none =>
      if validKey w then
        if ctxExpired now dl then
          ⟨.error .deadlineExceeded, st₁, now, 0⟩
        else
          let tEnd := now + R.dur w
          if beyond dl tEnd then
            ⟨.error .deadlineExceeded, st₁, upstreamEnd dl tEnd, 1⟩
          else
            match R.value w with
            | some v =>
              ⟨.ok v,
               { st₁ with cache := setFun st₁.cache w (some (v, tEnd + ttlSeconds)) },
               tEnd, 1⟩
            | none => ⟨.error .upstreamErr, st₁, tEnd, 1⟩
      else
        ⟨.error .invalidKey, st₁, now, 0⟩

/-! ### The POST /api/get-balance handler -/

/-- One element of the handler's `results` array.  The success branch
(main.go lines 248-251) emits `wallet` and `balance`; the error branch
(lines 242-246) emits `wallet`, `error` and `balance: 0`.  A field is
`none` when the emitted JSON object has no such key. -/
structure BatchItem where
  wallet : String
  balance : Option Nat
  error : Option GetErr
deriving DecidableEq, Repr

/-- Build the result item for wallet `w` from the `getBalance` outcome,
exactly as the two `append` branches of the handler loop do. -/
def mkItem (w : String) (r : Except GetErr Nat) : BatchItem :=
  match r with
  | .ok bal => ⟨w, some bal, none⟩
  | .error e => ⟨w, some 0, some e⟩

/-- Accumulated outcome of the handler loop over the wallet list. -/
structure BatchOut where
  items : List BatchItem
  state : SeqState
  time : Nat
  upstream : Nat

/-- The handler loop (main.go lines 237-253): for each wallet, in input
order, build a fresh 5-second context from `context.Background()` and
call `getBalance`; append one item regardless of success or failure. -/
def runBatch (R : Resolver) : SeqState → Nat → List String → BatchOut
  | st, t, [] => ⟨[], st, t, 0⟩
  | st, t, w :: ws =>
    let o := getBalanceSeq R st t (some (t + timeoutSeconds)) w
    let rest := runBatch R o.state o.finish ws
    ⟨mkItem w o.result :: rest.items, rest.state, rest.time, o.calls + rest.upstream⟩

/-- The handler's observable outcome: HTTP status, result items, shared
state, clock on completion, number of `getBalance` invocations made,
and total upstream RPC calls. -/
structure HandlerOut where
  status : Nat
  items : List BatchItem
  state : SeqState
  time : Nat
  gets : Nat
  upstream : Nat

/-- The POST /api/get-balance handler (main.go lines 227-256).
`reqCtxDeadline` is the deadline of the incoming HTTP request's own
context; the handler never reads it — every wallet gets a fresh
`context.WithTimeout(context.Background(), 5s)`.  A body that fails to
bind or an empty wallet list yields 400 before any `getBalance` call;
otherwise the wallets are resolved strictly sequentially and the batch
answers 200. -/
def handleGetBalance (R : Resolver) (reqCtxDeadline : Option Nat)
    (body : Option (List String)) (st : SeqState) (t : Nat) : HandlerOut :=
  match body with
  | none => ⟨400, [], st, t, 0, 0⟩
  | some ws =>
    if ws.isEmpty then ⟨400, [], st, t, 0, 0⟩
    else
      let b := runBatch R st t ws
      ⟨200, b.items, b.state, b.time, ws.length, b.upstream⟩

/-! ### Small-step interleaving machine for concurrent getBalance -/

/-- Program counter of one concurrent `getBalance` caller.  `recheck`
covers the locked re-read plus the (thread-local) base58 parse that
immediately follows it; `finishing o` is a caller whose upstream call
has produced outcome `o` but has not yet stored/unlocked/returned. -/
inductive Phase where
  | checkFast
  | lockEnter
  | lockWait
  | recheck
  | callRes
  | finishing (o : Except GetErr Nat)
  | ret (r : Except GetErr Nat)
deriving DecidableEq, Repr

/-- One concurrent caller: its wallet argument, its context deadline,
and its program counter. -/
structure CThread where
  wallet : String
  deadline : Option Nat
  phase : Phase
deriving DecidableEq, Repr

/-- Global state of the concurrent machine.  `locks w = none`: no mutex
in `walletLocks` for `w`; `some none`: mutex present and free;
`some (some i)`: mutex held by caller `i` (the holder index is ghost
information — a Go mutex stores no owner). -/
structure CState where
  cache : String → Option (Nat × Nat)
  locks : String → Option (Option Nat)
  now : Nat
  invocations : Nat
  threads : List CThread

/-- One atomic step of caller `i` (currently in state `t`), for
upstream resolver `R`.  Each case is one shared-state action of
main.go lines 166-195. -/
def stepThread (R : String → Option Nat) (s : CState) (i : Nat) (t : CThread) :
    CState :=
  match t.phase with
  | .checkFast =>
    match hitVal s.cache t.wallet s.now with
    | some x => { s with threads := s.threads.set i { t with phase := .ret (.ok x) } }
    | none => { s with threads := s.threads.set i { t with phase := .lockEnter } }
  | .lockEnter =>
    let locks' := match s.locks t.wallet with
      | none => setFun s.locks t.wallet (some none)
      | some o => setFun s.locks t.wallet (some o)
    { s with locks := locks', threads := s.threads.set i { t with phase := .lockWait } }
  | .lockWait =>
    match s.locks t.wallet with
    | some none =>
      { s with locks := setFun s.locks t.wallet (some (some i)),
               threads := s.threads.set i { t with phase := .recheck } }
    | _ => s
  | .recheck =>
    match hitVal s.cache t.wallet s.now with
    | some x =>
      { s with locks := setFun s.locks t.wallet (some none),
               threads := s.threads.set i { t with phase := .ret (.ok x) } }
    | none =>
      if validKey t.wallet then
        { s with threads := s.threads.set i { t with phase := .callRes } }
      else
        { s with locks := setFun s.locks t.wallet (some none),
                 threads := s.threads.set i { t with phase := .ret (.error .invalidKey) } }
  | .callRes =>
    if ctxExpired s.now t.deadline then
      { s with threads := s.threads.set i { t with phase := .finishing (.error .deadlineExceeded) } }
    else
      let o : Except GetErr Nat := match R t.wallet with
        | some x => .ok x
        | none => .error .upstreamErr
      { s with invocations := s.invocations + 1,
               threads := s.threads.set i { t with phase := .finishing o } }
  | .finishing o =>
    match o with
    | .ok x =>
      { s with cache := setFun s.cache t.wallet (some (x, s.now + ttlSeconds)),
               locks := setFun s.locks t.wallet (some none),
               threads := s.threads.set i { t with phase := .ret (.ok x) } }
    | .error e =>
      { s with locks := setFun s.locks t.wallet (some none),
               threads := s.threads.set i { t with phase := .ret (.error e) } }
  | .ret _ => s

/-- A scheduler action: step caller `i`, or advance the clock by one
second. -/
inductive CAct where
  | thr (i : Nat)
  | tick
deriving DecidableEq, Repr

/-- One machine step under schedule action `a`. -/
def cstep (R : String → Option Nat) (s : CState) (a : CAct) : CState :=
  match a with
  | .tick => { s with now := s.now + 1 }
  | .thr i =>
    match s.threads[i]? with
    | some t => stepThread R s i t
    | none => s

/-- Run a schedule. -/
def crun (R : String → Option Nat) (s : CState) (σ : List CAct) : CState :=
  σ.foldl (cstep R) s

/-- Whether a caller has returned. -/
def isRet (p : Phase) : Bool :=
  match p with
  | .ret _ => true
  | _ => false

/-- All callers have returned. -/
def allDone (s : CState) : Bool :=
  s.threads.all fun t => isRet t.phase

/-- A schedule that never advances the clock: all its actions happen
within one instant (truly concurrent calls). -/
def noTick (σ : List CAct) : Bool :=
  σ.all fun a => a != .tick

/-- Initial machine state: `n` callers, all about to call `getBalance`
on wallet `w` with context deadline `d`, over entry table `cache₀`,
lock table `locks₀`, clock `now₀`, and no upstream call issued yet. -/
def cinit (n : Nat) (w : String) (d : Option Nat)
    (cache₀ : String → Option (Nat × Nat)) (locks₀ : String → Option (Option Nat))
    (now₀ : Nat) : CState :=
  ⟨cache₀, locks₀, now₀, 0, List.replicate n ⟨w, d, .checkFast⟩⟩

/-! ### Helper lemmas about the sequential embedding -/

@[simp] theorem lockAcquire_cache (st : SeqState) (w : String) :
    (lockAcquire st w).cache = st.cache := by
  unfold lockAcquire; split <;> rfl

theorem lockAcquire_mem (st : SeqState) (w : String) :
    w ∈ (lockAcquire st w).lockTable := by
  unfold lockAcquire; split
  · assumption
  · exact List.mem_cons_self w st.lockTable

theorem lockAcquire_mono (st : SeqState) (w k : String) (h : k ∈ st.lockTable) :
    k ∈ (lockAcquire st w).lockTable := by
  unfold lockAcquire; split
  · exact h
  · exact List.mem_cons_of_mem w h

@[simp] theorem mkItem_wallet (w : String) (r : Except GetErr Nat) :
    (mkItem w r).wallet = w := by
  cases r <;> rfl

theorem hitVal_none_mono (c : String → Option (Nat × Nat)) (w : String)
    (now t : Nat) (h : hitVal c w now = none) (hle : now ≤ t) :
    hitVal c w t = none := by
  unfold hitVal at h ⊢
  cases hc : c w with
  | none => rfl
  | some p =>
    obtain ⟨v, e⟩ := p
    rw [hc] at h
    simp only at h ⊢
    split at h
    · cases h
    · rename_i he
      rw [if_neg]
      omega

theorem getBalanceSeq_miss_calls (R : Resolver) (st : SeqState) (w : String)
    (now : Nat) (dl : Option Nat)
    (hmiss : hitVal st.cache w now = none) (hv : validKey w = true)
    (hctx : ctxExpired now dl = false) :
    (getBalanceSeq R st now dl w).calls = 1 := by
  cases hb : beyond dl (now + R.dur w) <;> cases hr : R.value w <;>
    simp [getBalanceSeq, hmiss, hv, hctx, hb, hr]

theorem getBalanceSeq_error_cache (R : Resolver) (st : SeqState) (now : Nat)
    (dl : Option Nat) (w : String) (e : GetErr)
    (h : (getBalanceSeq R st now dl w).result = .error e) :
    (getBalanceSeq R st now dl w).state.cache = st.cache := by
  cases h1 : hitVal st.cache w now with
  | some v => simp [getBalanceSeq, h1] at h
  | none =>
    cases h2 : validKey w with
    | false => simp [getBalanceSeq, h1, h2]
    | true =>
      cases h3 : ctxExpired now dl with
      | true => simp [getBalanceSeq, h1, h2, h3]
      | false =>
        cases h4 : beyond dl (now + R.dur w) with
        | true => simp [getBalanceSeq, h1, h2, h3, h4]
        | false =>
          cases h5 : R.value w with
          | some v => simp [getBalanceSeq, h1, h2, h3, h4, h5] at h
          | none => simp [getBalanceSeq, h1, h2, h3, h4, h5]

theorem getBalanceSeq_cache_valid (R : Resolver) (st : SeqState) (now : Nat)
    (dl : Option Nat) (w : String)
    (hcv : ∀ k p, st.cache k = some p → validKey k = true) :
    ∀ k p, (getBalanceSeq R st now dl w).state.cache k = some p → validKey k = true := by
  intro k p
  cases h1 : hitVal st.cache w now with
  | some v => simp [getBalanceSeq, h1]; exact hcv k p
  | none =>
    cases h2 : validKey w with
    | false => simp [getBalanceSeq, h1, h2]; exact hcv k p
    | true =>
      cases h3 : ctxExpired now dl with
      | true => simp [getBalanceSeq, h1, h2, h3]; exact hcv k p
      | false =>
        cases h4 : beyond dl (now + R.dur w) with
        | true => simp [getBalanceSeq, h1, h2, h3, h4]; exact hcv k p
        | false =>
          cases h5 : R.value w with
          | none => simp [getBalanceSeq, h1, h2, h3, h4, h5]; exact hcv k p
          | some v =>
            simp [getBalanceSeq, h1, h2, h3, h4, h5, setFun]
            split
            · rename_i hkw
              intro _
              rw [hkw]
              exact h2
            · exact hcv k p

theorem getBalanceSeq_lockTable_miss (R : Resolver) (st : SeqState) (now : Nat)
    (dl : Option Nat) (w : String) (hmiss : hitVal st.cache w now = none) :
    (getBalanceSeq R st now dl w).state.lockTable = (lockAcquire st w).lockTable := by
  cases h2 : validKey w with
  | false => simp [getBalanceSeq, hmiss, h2]
  | true =>
    cases h3 : ctxExpired now dl with
    | true => simp [getBalanceSeq, hmiss, h2, h3]
    | false =>
      cases h4 : beyond dl (now + R.dur w) with
      | true => simp [getBalanceSeq, hmiss, h2, h3, h4]
      | false =>
        cases h5 : R.value w with
        | some v => simp [getBalanceSeq, hmiss, h2, h3, h4, h5]
        | none => simp [getBalanceSeq, hmiss, h2, h3, h4, h5]

theorem getBalanceSeq_lockTable_mono (R : Resolver) (st : SeqState) (now : Nat)
    (dl : Option Nat) (w k : String) (h : k ∈ st.lockTable) :
    k ∈ (getBalanceSeq R st now dl w).state.lockTable := by
  cases h1 : hitVal st.cache w now with
  | some v => simpa [getBalanceSeq, h1] using h
  | none =>
    rw [getBalanceSeq_lockTable_miss R st now dl w h1]
    exact lockAcquire_mono st w k h

theorem runBatch_items_wallets (R : Resolver) :
    ∀ (ws : List String) (st : SeqState) (t : Nat),
      (runBatch R st t ws).items.map (fun it => it.wallet) = ws
  | [], _, _ => rfl
  | w :: ws, st, t => by
    simp [runBatch, runBatch_items_wallets R ws]

theorem runBatch_mem_items (R : Resolver) :
    ∀ (ws : List String) (st : SeqState) (t : Nat) (it : BatchItem),
      it ∈ (runBatch R st t ws).items → ∃ w r, it = mkItem w r
  | [], _, _, it, h => absurd h (by simp [runBatch])
  | w :: ws, st, t, it, h => by
    simp only [runBatch, List.mem_cons] at h
    rcases h with h | h
    · exact ⟨w, _, h⟩
    · exact runBatch_mem_items R ws _ _ it h

theorem getBalanceSeq_finish_le (R : Resolver) (st : SeqState) (t : Nat) (w : String) :
    (getBalanceSeq R st t (some (t + timeoutSeconds)) w).finish ≤ t + timeoutSeconds := by
  cases h1 : hitVal st.cache w t with
  | some v => simp [getBalanceSeq, h1]
  | none =>
    cases h2 : validKey w with
    | false => simp [getBalanceSeq, h1, h2]
    | true =>
      cases h3 : ctxExpired t (some (t + timeoutSeconds)) with
      | true => simp [getBalanceSeq, h1, h2, h3]
      | false =>
        cases h4 : beyond (some (t + timeoutSeconds)) (t + R.dur w) with
        | true =>
          simp [getBalanceSeq, h1, h2, h3, h4, upstreamEnd]
        | false =>
          have hle : t + R.dur w ≤ t + timeoutSeconds := by
            simp [beyond] at h4; omega
          cases h5 : R.value w with
          | some v => simpa [getBalanceSeq, h1, h2, h3, h4, h5] using hle
          | none => simpa [getBalanceSeq, h1, h2, h3, h4, h5] using hle

theorem runBatch_time_le (R : Resolver) :
    ∀ (ws : List String) (st : SeqState) (t : Nat),
      (runBatch R st t ws).time ≤ t + timeoutSeconds * ws.length
  | [], _, _ => by simp [runBatch]
  | w :: ws, st, t => by
    have h1 := getBalanceSeq_finish_le R st t w
    have h2 := runBatch_time_le R ws
      (getBalanceSeq R st t (some (t + timeoutSeconds)) w).state
      (getBalanceSeq R st t (some (t + timeoutSeconds)) w).finish
    simp only [runBatch, List.length_cons, Nat.mul_add, Nat.mul_one]
    omega

/-! ### Concrete inputs used by witnesses and counterexamples -/

/-- A resolver that always succeeds with 42 in one second. -/
def seqRok : Resolver := ⟨fun _ => some 42, fun _ => 1⟩

/-- A resolver that always fails after one second. -/
def seqRfail : Resolver := ⟨fun _ => none, fun _ => 1⟩

/-- Empty entry table, empty lock table. -/
def emptySt : SeqState := ⟨fun _ => none, []⟩

/-- An entry for oneKey with value 42 expiring at time 20. -/
def ttlSt : SeqState := ⟨fun k => if k = oneKey then some (42, 20) else none, []⟩

/-- An entry for oneKey stored at T0 = 0: value 42, expiresAt = 10. -/
def ttlBoundarySt : SeqState := ⟨fun k => if k = oneKey then some (42, 10) else none, []⟩

/-- The exactly-one-of-value-or-error predicate asserted by claim C5. -/
def exclusiveItem (it : BatchItem) : Bool :=
  (it.balance.isSome && it.error.isNone) || (it.balance.isNone && it.error.isSome)

/-! ### Claim C2 — TTL -/

/-- Claim C2 counterexample: the entry for oneKey was stored at T0 = 0
with TTL = 10, so expiresAt = 10.  A Get at exactly T = T0 + TTL = 10
still returns the cached value and issues no upstream call (go-cache
declares an entry dead only once now strictly exceeds expiresAt), so the
claim that a Get at exactly T0 + d treats the entry as dead is false. -/
theorem ttl_boundary_counterexample :
    ttlBoundarySt.cache oneKey = some (42, 0 + ttlSeconds) ∧
    (getBalanceSeq seqRok ttlBoundarySt (0 + ttlSeconds) none oneKey).result = .ok 42 ∧
    (getBalanceSeq seqRok ttlBoundarySt (0 + ttlSeconds) none oneKey).calls = 0 := by
  decide

/-- Claim C2 (amended): a value stored for a wallet carries
expiresAt = storeTime + 10; every Get at a time T ≤ expiresAt returns
the stored value with no upstream call and unchanged state; the entry is
dead only strictly after expiresAt — the first Get at T > expiresAt
(valid key, unexpired context) issues exactly one new upstream call.  In
particular a Get at exactly T0 + d still serves the cached value. -/
theorem getBalance_ttl (R : Resolver) (st : SeqState) (w : String) (v e now : Nat)
    (dl : Option Nat) (hstore : st.cache w = some (v, e)) :
    (now ≤ e → getBalanceSeq R st now dl w = ⟨.ok v, st, now, 0⟩) ∧
    (e < now → validKey w = true → ctxExpired now dl = false →
      (getBalanceSeq R st now dl w).calls = 1) ∧
    (∀ (st' : SeqState) (now' : Nat) (dl' : Option Nat) (x : Nat),
      hitVal st'.cache w now' = none → validKey w = true →
      ctxExpired now' dl' = false → beyond dl' (now' + R.dur w) = false →
      R.value w = some x →
      (getBalanceSeq R st' now' dl' w).state.cache w =
        some (x, (getBalanceSeq R st' now' dl' w).finish + ttlSeconds)) := by
  refine ⟨?_, ?_, ?_⟩
  · intro h
    simp [getBalanceSeq, hitVal, hstore, h]
  · intro h hv hctx
    have hmiss : hitVal st.cache w now = none := by
      unfold hitVal; rw [hstore]
      show (if now ≤ e then some v else none) = none
      exact if_neg (by omega)
    exact getBalanceSeq_miss_calls R st w now dl hmiss hv hctx
  · intro st' now' dl' x hmiss hv hctx hb hx
    simp [getBalanceSeq, hmiss, hv, hctx, hb, hx, setFun]

/-- Witness for getBalance_ttl at a concrete stored entry. -/
theorem getBalance_ttl_witness :
    ttlSt.cache oneKey = some (42, 20) ∧
    ((7 ≤ 20 → getBalanceSeq seqRok ttlSt 7 none oneKey = ⟨.ok 42, ttlSt, 7, 0⟩) ∧
     (20 < 7 → validKey oneKey = true → ctxExpired 7 none = false →
       (getBalanceSeq seqRok ttlSt 7 none oneKey).calls = 1) ∧
     (∀ (st' : SeqState) (now' : Nat) (dl' : Option Nat) (x : Nat),
       hitVal st'.cache oneKey now' = none → validKey oneKey = true →
       ctxExpired now' dl' = false → beyond dl' (now' + seqRok.dur oneKey) = false →
       seqRok.value oneKey = some x →
       (getBalanceSeq seqRok st' now' dl' oneKey).state.cache oneKey =
         some (x, (getBalanceSeq seqRok st' now' dl' oneKey).finish + ttlSeconds))) :=
  ⟨by decide, getBalance_ttl seqRok ttlSt oneKey 42 20 7 none (by decide)⟩

/-! ### Claim C3 — batch order and isolation -/

/-- Claim C3: for every non-empty wallet list the handler completes with
status 200 and returns exactly one item per input wallet, in input
order (the item list mapped to its wallet field equals the input list);
and any failing resolution writes nothing to the entry table, so a
failure is recorded only in its own item and cannot change what any
sibling wallet resolves to. -/
theorem resolveAll_order_isolation (R : Resolver) (rdl : Option Nat)
    (ws : List String) (st : SeqState) (t : Nat) (hne : ws ≠ []) :
    (handleGetBalance R rdl (some ws) st t).status = 200 ∧
    (handleGetBalance R rdl (some ws) st t).items.map (fun it => it.wallet) = ws ∧
    (∀ (Rx : Resolver) (stx : SeqState) (nowx : Nat) (dlx : Option Nat)
       (wx : String) (e : GetErr),
       (getBalanceSeq Rx stx nowx dlx wx).result = .error e →
       (getBalanceSeq Rx stx nowx dlx wx).state.cache = stx.cache) := by
  have hemp : ws.isEmpty = false := by
    cases ws with
    | nil => exact absurd rfl hne
    | cons a l => rfl
  refine ⟨?_, ?_, ?_⟩
  · simp [handleGetBalance, hemp]
  · simp [handleGetBalance, hemp, runBatch_items_wallets]
  · intro Rx stx nowx dlx wx e h
    exact getBalanceSeq_error_cache Rx stx nowx dlx wx e h

/-- Witness for resolveAll_order_isolation: the spec's A-ok, B-error,
C-ok scenario with B = "" (invalid) between two valid wallets. -/
theorem resolveAll_order_isolation_witness :
    ([oneKey, "", oneKey] : List String) ≠ [] ∧
    ((handleGetBalance seqRok none (some [oneKey, "", oneKey]) emptySt 0).status = 200 ∧
     (handleGetBalance seqRok none (some [oneKey, "", oneKey]) emptySt 0).items.map
       (fun it => it.wallet) = [oneKey, "", oneKey] ∧
     (∀ (Rx : Resolver) (stx : SeqState) (nowx : Nat) (dlx : Option Nat)
        (wx : String) (e : GetErr),
        (getBalanceSeq Rx stx nowx dlx wx).result = .error e →
        (getBalanceSeq Rx stx nowx dlx wx).state.cache = stx.cache)) :=
  ⟨by decide, resolveAll_order_isolation seqRok none [oneKey, "", oneKey] emptySt 0 (by decide)⟩

/-! ### Claim C4 — no negative caching -/

/-- Claim C4: when the upstream call fails, `getBalance` stores nothing
(the entry table is exactly as before), issues that one upstream call,
returns the upstream error, and — in the concurrent machine — the
finishing step of a failed call releases the per-key mutex without
touching the cache; the very next Get for the same key (any later time,
unexpired context) attempts the upstream call again. -/
theorem getBalance_no_negative_caching (R : Resolver) (st : SeqState) (w : String)
    (now : Nat) (dl : Option Nat)
    (hv : validKey w = true) (hmiss : hitVal st.cache w now = none)
    (hctx : ctxExpired now dl = false) (hb : beyond dl (now + R.dur w) = false)
    (hfail : R.value w = none) :
    (getBalanceSeq R st now dl w).result = .error .upstreamErr ∧
    (getBalanceSeq R st now dl w).calls = 1 ∧
    (getBalanceSeq R st now dl w).state.cache = st.cache ∧
    (∀ (t' : Nat) (dl' : Option Nat), now ≤ t' → ctxExpired t' dl' = false →
      (getBalanceSeq R (getBalanceSeq R st now dl w).state t' dl' w).calls = 1) ∧
    (∀ (Rc : String → Option Nat) (s : CState) (i : Nat) (ti : CThread) (e : GetErr),
      s.threads[i]? = some ti → ti.phase = .finishing (.error e) →
      (cstep Rc s (.thr i)).locks ti.wallet = some none ∧
      (cstep Rc s (.thr i)).cache = s.cache) := by
  have h1 : getBalanceSeq R st now dl w =
      ⟨.error .upstreamErr, lockAcquire st w, now + R.dur w, 1⟩ := by
    simp [getBalanceSeq, hmiss, hv, hctx, hb, hfail]
  refine ⟨by rw [h1], by rw [h1], by rw [h1]; exact lockAcquire_cache st w, ?_, ?_⟩
  · intro t' dl' hle hctx'
    have hmiss' : hitVal (getBalanceSeq R st now dl w).state.cache w t' = none := by
      rw [h1]
      simp only [lockAcquire_cache]
      exact hitVal_none_mono st.cache w now t' hmiss hle
    exact getBalanceSeq_miss_calls R _ w t' dl' hmiss' hv hctx'
  · intro Rc s i ti e hti hph
    constructor
    · simp [cstep, hti, stepThread, hph, setFun]
    · simp [cstep, hti, stepThread, hph]

/-- Witness for getBalance_no_negative_caching with a failing resolver
on the empty cache, plus a one-thread machine at a failed finish. -/
theorem getBalance_no_negative_caching_witness :
    validKey oneKey = true ∧
    hitVal emptySt.cache oneKey 0 = none ∧
    ctxExpired 0 none = false ∧
    beyond none (0 + seqRfail.dur oneKey) = false ∧
    seqRfail.value oneKey = none ∧
    ((getBalanceSeq seqRfail emptySt 0 none oneKey).result = .error .upstreamErr ∧
     (getBalanceSeq seqRfail emptySt 0 none oneKey).calls = 1 ∧
     (getBalanceSeq seqRfail emptySt 0 none oneKey).state.cache = emptySt.cache ∧
     (∀ (t' : Nat) (dl' : Option Nat), 0 ≤ t' → ctxExpired t' dl' = false →
       (getBalanceSeq seqRfail (getBalanceSeq seqRfail emptySt 0 none oneKey).state
         t' dl' oneKey).calls = 1) ∧
     (∀ (Rc : String → Option Nat) (s : CState) (i : Nat) (ti : CThread) (e : GetErr),
       s.threads[i]? = some ti → ti.phase = .finishing (.error e) →
       (cstep Rc s (.thr i)).locks ti.wallet = some none ∧
       (cstep Rc s (.thr i)).cache = s.cache)) :=
  ⟨by decide, by decide, rfl, rfl, rfl,
   getBalance_no_negative_caching seqRfail emptySt oneKey 0 none
     (by decide) (by decide) rfl rfl rfl⟩

/-! ### Claim C5 — result item exclusivity -/

/-- Claim C5 counterexample: batch [""] yields the single item
(wallet "", balance 0, error invalidKey).  The handler's error branch
emits a populated balance field (the literal 0) next to the error
field, so a failed item does carry a value field and the
exactly-one-of-value-or-error property fails on it. -/
theorem batch_item_exclusivity_counterexample :
    (handleGetBalance seqRok none (some [""]) emptySt 0).items =
      [⟨"", some 0, some .invalidKey⟩] ∧
    exclusiveItem ⟨"", some 0, some .invalidKey⟩ = false := by
  decide

/-- Claim C5 (amended): every item the handler emits carries a populated
balance field; a successful item carries no error, and a failed item
carries its error together with the placeholder balance 0 — so failure
is marked by the presence of the error field, not by the absence of the
value field. -/
theorem batch_item_fields (R : Resolver) (rdl : Option Nat)
    (body : Option (List String)) (st : SeqState) (t : Nat) (it : BatchItem)
    (hmem : it ∈ (handleGetBalance R rdl body st t).items) :
    it.balance.isSome = true ∧ (∀ e, it.error = some e → it.balance = some 0) := by
  have hit : ∃ w r, it = mkItem w r := by
    cases body with
    | none => simp [handleGetBalance] at hmem
    | some ws =>
      cases hw : ws.isEmpty with
      | true => simp [handleGetBalance, hw] at hmem
      | false =>
        simp only [handleGetBalance, hw, Bool.false_eq_true, if_false] at hmem
        exact runBatch_mem_items R ws st t it hmem
  obtain ⟨w, r, rfl⟩ := hit
  cases r with
  | ok bal =>
    refine ⟨rfl, fun e h => ?_⟩
    simp [mkItem] at h
  | error e => exact ⟨rfl, fun e' _ => rfl⟩

/-- Witness for batch_item_fields at the concrete failed item of the
batch [""]. -/
theorem batch_item_fields_witness :
    (⟨"", some 0, some .invalidKey⟩ : BatchItem) ∈
      (handleGetBalance seqRok none (some [""]) emptySt 0).items ∧
    ((⟨"", some 0, some .invalidKey⟩ : BatchItem).balance.isSome = true ∧
     (∀ e, (⟨"", some 0, some .invalidKey⟩ : BatchItem).error = some e →
       (⟨"", some 0, some .invalidKey⟩ : BatchItem).balance = some 0)) :=
  ⟨by decide, batch_item_fields seqRok none (some [""]) emptySt 0 _ (by decide)⟩

/-! ### Claim C7 — invalid keys never reach upstream -/

/-- Claim C7: under the invariant that every cached wallet is valid
(which getBalance preserves, fourth conjunct), a Get on a malformed
wallet returns the invalid-key error, issues no upstream call, and
leaves the entry table unchanged: the upstream branch is unreachable
for malformed keys. -/
theorem getBalance_invalid_key_no_upstream (R : Resolver) (st : SeqState)
    (w : String) (now : Nat) (dl : Option Nat) (hw : validKey w = false)
    (hcv : ∀ k p, st.cache k = some p → validKey k = true) :
    (getBalanceSeq R st now dl w).result = .error .invalidKey ∧
    (getBalanceSeq R st now dl w).calls = 0 ∧
    (getBalanceSeq R st now dl w).state.cache = st.cache ∧
    (∀ (Rx : Resolver) (stx : SeqState) (nowx : Nat) (dlx : Option Nat) (wx : String),
      (∀ k p, stx.cache k = some p → validKey k = true) →
      ∀ k p, (getBalanceSeq Rx stx nowx dlx wx).state.cache k = some p →
        validKey k = true) := by
  have hnone : st.cache w = none := by
    cases hc : st.cache w with
    | none => rfl
    | some p => exact absurd (hcv w p hc) (by simp [hw])
  have hmiss : hitVal st.cache w now = none := by
    unfold hitVal; rw [hnone]
  refine ⟨?_, ?_, ?_, ?_⟩
  · simp [getBalanceSeq, hmiss, hw]
  · simp [getBalanceSeq, hmiss, hw]
  · simp [getBalanceSeq, hmiss, hw]
  · intro Rx stx nowx dlx wx hcv'
    exact getBalanceSeq_cache_valid Rx stx nowx dlx wx hcv'

/-- Witness for getBalance_invalid_key_no_upstream on the malformed
wallet "" over the empty cache. -/
theorem getBalance_invalid_key_no_upstream_witness :
    validKey "" = false ∧
    (∀ k p, emptySt.cache k = some p → validKey k = true) ∧
    ((getBalanceSeq seqRok emptySt 3 none "").result = .error .invalidKey ∧
     (getBalanceSeq seqRok emptySt 3 none "").calls = 0 ∧
     (getBalanceSeq seqRok emptySt 3 none "").state.cache = emptySt.cache ∧
     (∀ (Rx : Resolver) (stx : SeqState) (nowx : Nat) (dlx : Option Nat) (wx : String),
       (∀ k p, stx.cache k = some p → validKey k = true) →
       ∀ k p, (getBalanceSeq Rx stx nowx dlx wx).state.cache k = some p →
         validKey k = true)) :=
  ⟨by decide, fun k p h => by simp [emptySt] at h,
   getBalance_invalid_key_no_upstream seqRok emptySt "" 3 none (by decide)
     (fun k p h => by simp [emptySt] at h)⟩

/-! ### Claim C8 — empty-batch rejection -/

/-- Claim C8: an unparseable body or an empty wallet list makes the
handler answer 400 with no items, no getBalance invocation, no upstream
call, and entry table, lock table and clock exactly as before. -/
theorem handler_rejects_empty_batch (R : Resolver) (rdl : Option Nat)
    (body : Option (List String)) (st : SeqState) (t : Nat)
    (hb : body = none ∨ body = some []) :
    handleGetBalance R rdl body st t = ⟨400, [], st, t, 0, 0⟩ := by
  rcases hb with h | h <;> subst h <;> rfl

/-- Witness for handler_rejects_empty_batch at an unparseable body. -/
theorem handler_rejects_empty_batch_witness :
    ((none : Option (List String)) = none ∨ (none : Option (List String)) = some []) ∧
    handleGetBalance seqRok none none emptySt 5 = ⟨400, [], emptySt, 5, 0, 0⟩ :=
  ⟨Or.inl rfl, handler_rejects_empty_batch seqRok none none emptySt 5 (Or.inl rfl)⟩

/-! ### Claim C9 — lock allocation precedes validation -/

/-- Claim C9: every Get that misses the cache inserts its wallet into
the lock table — malformed wallets included, since the insertion
happens before base58 validation (second conjunct: the malformed call
still returns invalidKey yet the wallet is in the table) — and no call
ever removes a lock-table entry (third conjunct: monotone growth). -/
theorem lock_table_monotone_growth (R : Resolver) (st : SeqState) (w : String)
    (now : Nat) (dl : Option Nat) (hmiss : hitVal st.cache w now = none) :
    w ∈ (getBalanceSeq R st now dl w).state.lockTable ∧
    (validKey w = false → (getBalanceSeq R st now dl w).result = .error .invalidKey) ∧
    (∀ (Rx : Resolver) (stx : SeqState) (nowx : Nat) (dlx : Option Nat) (wx k : String),
      k ∈ stx.lockTable → k ∈ (getBalanceSeq Rx stx nowx dlx wx).state.lockTable) := by
  refine ⟨?_, ?_, ?_⟩
  · rw [getBalanceSeq_lockTable_miss R st now dl w hmiss]
    exact lockAcquire_mem st w
  · intro hw
    simp [getBalanceSeq, hmiss, hw]
  · intro Rx stx nowx dlx wx k h
    exact getBalanceSeq_lockTable_mono Rx stx nowx dlx wx k h

/-- Witness for lock_table_monotone_growth on the malformed wallet "0"
over the empty cache. -/
theorem lock_table_monotone_growth_witness :
    hitVal emptySt.cache "0" 0 = none ∧
    ("0" ∈ (getBalanceSeq seqRok emptySt 0 none "0").state.lockTable ∧
     (validKey "0" = false →
       (getBalanceSeq seqRok emptySt 0 none "0").result = .error .invalidKey) ∧
     (∀ (Rx : Resolver) (stx : SeqState) (nowx : Nat) (dlx : Option Nat) (wx k : String),
       k ∈ stx.lockTable → k ∈ (getBalanceSeq Rx stx nowx dlx wx).state.lockTable)) :=
  ⟨by decide, lock_table_monotone_growth seqRok emptySt "0" 0 none (by decide)⟩

/-! ### Claim C10 — per-item deadline independence -/

/-- Claim C10: the handler's outcome is entirely independent of the
incoming request context's deadline (each wallet gets a fresh
context.Background()-derived 5-second deadline), and since the wallets
are resolved strictly sequentially with each resolution bounded by its
own 5-second budget, a batch of N wallets finishes within 5·N seconds
of its start. -/
theorem per_item_deadline_independent (R : Resolver) (ws : List String)
    (st : SeqState) (t : Nat) (r₁ r₂ : Option Nat) :
    handleGetBalance R r₁ (some ws) st t = handleGetBalance R r₂ (some ws) st t ∧
    (handleGetBalance R r₁ (some ws) st t).time ≤ t + timeoutSeconds * ws.length := by
  refine ⟨rfl, ?_⟩
  cases hw : ws.isEmpty with
  | true => simp [handleGetBalance, hw]
  | false =>
    simp only [handleGetBalance, hw, Bool.false_eq_true, if_false]
    exact runBatch_time_le R ws st t

/-! ### Helper lemmas about the concurrent machine -/

theorem threads_set_cases (l : List CThread) (i : Nat) (u : CThread) (j : Nat)
    (tj : CThread) (hj : (l.set i u)[j]? = some tj) :
    (j = i ∧ i < l.length ∧ tj = u) ∨ (j ≠ i ∧ l[j]? = some tj) := by
  by_cases hji : j = i
  · subst hji
    have hlen : j < l.length := by
      have h1 := (List.getElem?_eq_some.mp hj).1
      simpa using h1
    rw [List.getElem?_set_self hlen] at hj
    exact Or.inl ⟨rfl, hlen, (Option.some.inj hj).symm⟩
  · rw [List.getElem?_set_ne (Ne.symm hji)] at hj
    exact Or.inr ⟨hji, hj⟩

theorem stepThread_now (R : String → Option Nat) (s : CState) (i : Nat)
    (ti : CThread) : (stepThread R s i ti).now = s.now := by
  unfold stepThread
  cases ti.phase <;> (repeat' split) <;> rfl

theorem stepThread_threads_length (R : String → Option Nat) (s : CState) (i : Nat)
    (ti : CThread) : (stepThread R s i ti).threads.length = s.threads.length := by
  unfold stepThread
  cases ti.phase <;> (repeat' split) <;> simp [List.length_set]

theorem cstep_threads_length (R : String → Option Nat) (s : CState) (a : CAct) :
    (cstep R s a).threads.length = s.threads.length := by
  cases a with
  | tick => rfl
  | thr i =>
    cases hti : s.threads[i]? with
    | none => simp [cstep, hti]
    | some ti =>
      simp only [cstep, hti]
      exact stepThread_threads_length R s i ti

theorem crun_threads_length (R : String → Option Nat) :
    ∀ (σ : List CAct) (s : CState),
      (crun R s σ).threads.length = s.threads.length
  | [], _ => rfl
  | a :: σ, s => by
    have h1 := crun_threads_length R σ (cstep R s a)
    have h2 := cstep_threads_length R s a
    simpa [crun] using h1.trans h2

/-! ### Claim C6 — timeout semantics -/

/-- Two callers for oneKey; caller 1 has context deadline 3. -/
def c6Init : CState :=
  ⟨fun _ => none, fun _ => none, 0, 0,
   [⟨oneKey, none, .checkFast⟩, ⟨oneKey, some 3, .checkFast⟩]⟩

/-- Caller 0 takes the lock; caller 1 blocks on it; the clock passes
caller 1's deadline (3) while it waits; caller 0 resolves and caches;
caller 1 then acquires the lock and hits the fresh cache entry. -/
def c6Sched : List CAct :=
  [.thr 0, .thr 0, .thr 0, .thr 1, .thr 1, .thr 1,
   .tick, .tick, .tick, .tick, .tick,
   .thr 0, .thr 0, .thr 0, .thr 1, .thr 1]

/-- Claim C6 counterexample: caller 1's deadline (3) elapses while it is
blocked on the per-key mutex (the clock reaches 5), yet `getBalance`
does not fail with a Timeout — the plain `mu.Lock()` ignores the
context, and on re-check caller 1 returns the value cached meanwhile,
`ok 42`.  So a deadline elapsing during the lock wait does not produce
a Timeout error. -/
theorem timeout_lock_wait_counterexample :
    (crun (fun _ => some 42) c6Init c6Sched).threads.map (fun t => t.phase) =
      [.ret (.ok 42), .ret (.ok 42)] ∧
    (crun (fun _ => some 42) c6Init c6Sched).now = 5 ∧
    c6Init.threads.map (fun t => t.deadline) = [none, some 3] ∧
    ctxExpired (crun (fun _ => some 42) c6Init c6Sched).now (some 3) = true := by
  decide

/-- Claim C6 (amended): the context deadline bounds only the upstream
call, not the lock wait.  A caller that reaches the upstream step with
an expired deadline returns the deadline-exceeded error within its next
two steps, never invokes the resolver, and writes nothing to the cache.
A caller whose deadline elapses while it waits for the mutex is not
interrupted: it proceeds normally and may even return a value cached
meanwhile (see the counterexample). -/
theorem getBalance_deadline_bounds_upstream_only (Rc : String → Option Nat)
    (s : CState) (i : Nat) (ti : CThread)
    (h : s.threads[i]? = some ti) (hp : ti.phase = .callRes)
    (he : ctxExpired s.now ti.deadline = true) :
    ((cstep Rc (cstep Rc s (.thr i)) (.thr i)).threads[i]?).map (fun t => t.phase) =
      some (.ret (.error .deadlineExceeded)) ∧
    (cstep Rc (cstep Rc s (.thr i)) (.thr i)).invocations = s.invocations ∧
    (cstep Rc (cstep Rc s (.thr i)) (.thr i)).cache = s.cache := by
  have hlen : i < s.threads.length := by
    have h0 := (List.getElem?_eq_some.mp h).1
    simpa using h0
  have h1 : cstep Rc s (.thr i) = { s with threads := s.threads.set i ({ ti with phase := .finishing (.error .deadlineExceeded) }) } := by
    simp [cstep, h, stepThread, hp, he]
  have h2 : (s.threads.set i ({ ti with phase := .finishing (.error .deadlineExceeded) }))[i]? =
      some ({ ti with phase := .finishing (.error .deadlineExceeded) }) :=
    List.getElem?_set_self (by simpa [List.length_set] using hlen)
  have h3 : cstep Rc (cstep Rc s (.thr i)) (.thr i) =
      { s with locks := setFun s.locks ti.wallet (some none),
               threads := (s.threads.set i ({ ti with phase := .finishing (.error .deadlineExceeded) })).set i ({ ti with phase := .ret (.error .deadlineExceeded) }) } := by
    rw [h1]
    simp [cstep, h2, stepThread]
  refine ⟨?_, ?_, ?_⟩
  · rw [h3]
    rw [List.set_set]
    rw [List.getElem?_set_self hlen]
    rfl
  · rw [h3]
  · rw [h3]

/-- Witness for getBalance_deadline_bounds_upstream_only: a one-caller
machine already at the upstream step with its deadline (3) expired at
clock 10. -/
theorem getBalance_deadline_bounds_upstream_only_witness :
    (CState.mk (fun _ => none) (fun k => if k = oneKey then some (some 0) else none)
        10 0 [⟨oneKey, some 3, .callRes⟩]).threads[0]? =
      some ⟨oneKey, some 3, .callRes⟩ ∧
    (⟨oneKey, some 3, .callRes⟩ : CThread).phase = .callRes ∧
    ctxExpired (CState.mk (fun _ => none)
        (fun k => if k = oneKey then some (some 0) else none)
        10 0 [⟨oneKey, some 3, .callRes⟩]).now
      (⟨oneKey, some 3, .callRes⟩ : CThread).deadline = true ∧
    (((cstep (fun _ => some 42) (cstep (fun _ => some 42)
        (CState.mk (fun _ => none) (fun k => if k = oneKey then some (some 0) else none)
          10 0 [⟨oneKey, some 3, .callRes⟩]) (.thr 0)) (.thr 0)).threads[0]?).map
        (fun t => t.phase) = some (.ret (.error .deadlineExceeded)) ∧
     (cstep (fun _ => some 42) (cstep (fun _ => some 42)
        (CState.mk (fun _ => none) (fun k => if k = oneKey then some (some 0) else none)
          10 0 [⟨oneKey, some 3, .callRes⟩]) (.thr 0)) (.thr 0)).invocations =
       (CState.mk (fun _ => none) (fun k => if k = oneKey then some (some 0) else none)
          10 0 [⟨oneKey, some 3, .callRes⟩]).invocations ∧
     (cstep (fun _ => some 42) (cstep (fun _ => some 42)
        (CState.mk (fun _ => none) (fun k => if k = oneKey then some (some 0) else none)
          10 0 [⟨oneKey, some 3, .callRes⟩]) (.thr 0)) (.thr 0)).cache =
       (CState.mk (fun _ => none) (fun k => if k = oneKey then some (some 0) else none)
          10 0 [⟨oneKey, some 3, .callRes⟩]).cache) :=
  ⟨rfl, rfl, rfl,
   getBalance_deadline_bounds_upstream_only (fun _ => some 42)
     (CState.mk (fun _ => none) (fun k => if k = oneKey then some (some 0) else none)
       10 0 [⟨oneKey, some 3, .callRes⟩]) 0 ⟨oneKey, some 3, .callRes⟩ rfl rfl rfl⟩

/-! ### Claim C1 — single flight -/

/-- Phases during which a caller holds the per-key mutex. -/
def LockPhase : Phase → Prop
  | .recheck => True
  | .callRes => True
  | .finishing _ => True
  | _ => False

theorem forall_set (l : List CThread) (i : Nat) (u : CThread)
    (F : Nat → CThread → Prop)
    (hold : ∀ j tj, j ≠ i → l[j]? = some tj → F j tj)
    (hu : i < l.length → F i u) :
    ∀ j tj, (l.set i u)[j]? = some tj → F j tj := by
  intro j tj hj
  rcases threads_set_cases l i u j tj hj with ⟨hj1, hlen, hj3⟩ | ⟨hj1, hj2⟩
  · subst hj1; rw [hj3]; exact hu hlen
  · exact hold j tj hj1 hj2

theorem hwal_set (w : String) (d : Option Nat) (l : List CThread)
    (hl : ∀ t ∈ l, t.wallet = w ∧ t.deadline = d) (i : Nat) (u : CThread)
    (hu : u.wallet = w ∧ u.deadline = d) :
    ∀ t ∈ l.set i u, t.wallet = w ∧ t.deadline = d := by
  intro t ht
  rcases List.mem_or_eq_of_mem_set ht with h1 | h1
  · exact hl t h1
  · rw [h1]; exact hu

theorem exists_fin_set (l : List CThread) (i : Nat) (ti u : CThread)
    (hti : l[i]? = some ti)
    (hne : ∀ (o : Except GetErr Nat), ti.phase ≠ .finishing o)
    (hex : ∃ (j : Nat) (tj : CThread) (o : Except GetErr Nat),
      l[j]? = some tj ∧ tj.phase = .finishing o) :
    ∃ (j : Nat) (tj : CThread) (o : Except GetErr Nat),
      (l.set i u)[j]? = some tj ∧ tj.phase = .finishing o := by
  obtain ⟨j, tj, o, hj, ho⟩ := hex
  have hji : j ≠ i := by
    intro hji; subst hji
    rw [hti] at hj
    cases Option.some.inj hj
    exact hne o ho
  exact ⟨j, tj, o, by rw [List.getElem?_set_ne (Ne.symm hji)]; exact hj, ho⟩

/-- Machine invariant for N concurrent `getBalance` callers on the same
uncached wallet `w` when the resolver deterministically answers `v` and
no deadline interferes: the entry table holds nothing or exactly `v`
for `w`; at most one upstream call is ever issued; the mutex owner is
the unique caller in a lock-holding phase; a caller about to call
upstream sees an empty entry and no prior invocation; and every
returned caller got `v` after exactly one invocation. -/
structure SInv (w : String) (v : Nat) (d : Option Nat) (now₀ : Nat)
    (s : CState) : Prop where
  hnow : s.now = now₀
  hwal : ∀ t ∈ s.threads, t.wallet = w ∧ t.deadline = d
  hinv : s.invocations ≤ 1
  hcache : hitVal s.cache w now₀ = none ∨
    (hitVal s.cache w now₀ = some v ∧ s.invocations = 1)
  hlock : ∀ (i : Nat) (ti : CThread), s.threads[i]? = some ti →
    (LockPhase ti.phase → s.locks w = some (some i))
  hpre : ∀ (i : Nat) (ti : CThread), s.threads[i]? = some ti →
    (ti.phase = .callRes → hitVal s.cache w now₀ = none ∧ s.invocations = 0)
  hfin : ∀ (i : Nat) (ti : CThread), s.threads[i]? = some ti →
    (∀ (o : Except GetErr Nat), ti.phase = .finishing o →
      o = .ok v ∧ s.invocations = 1)
  hret : ∀ (i : Nat) (ti : CThread), s.threads[i]? = some ti →
    (∀ (r : Except GetErr Nat), ti.phase = .ret r →
      r = .ok v ∧ s.invocations = 1)
  htrk : s.invocations = 1 →
    (∃ (j : Nat) (tj : CThread) (o : Except GetErr Nat),
      s.threads[j]? = some tj ∧ tj.phase = .finishing o) ∨
    hitVal s.cache w now₀ = some v

theorem SInv_step (w : String) (v : Nat) (d : Option Nat) (now₀ : Nat)
    (hw : validKey w = true) (hd : ctxExpired now₀ d = false)
    (s : CState) (i : Nat) (h : SInv w v d now₀ s) :
    SInv w v d now₀ (cstep (fun _ => some v) s (.thr i)) := by
  cases hti : s.threads[i]? with
  | none =>
    have hs : cstep (fun _ => some v) s (.thr i) = s := by simp [cstep, hti]
    rw [hs]; exact h
  | some ti =>
    have hstep : cstep (fun _ => some v) s (.thr i) =
        stepThread (fun _ => some v) s i ti := by
      simp [cstep, hti]
    rw [hstep]
    have hmem := List.getElem?_mem hti
    obtain ⟨hww, hdd⟩ := h.hwal ti hmem
    cases hph : ti.phase with
    | checkFast =>
      cases hh : hitVal s.cache w now₀ with
      | some x =>
        have hxv : x = v ∧ s.invocations = 1 := by
          rcases h.hcache with hc | ⟨hc, h1⟩
          · rw [hc] at hh; cases hh
          · rw [hc] at hh; exact ⟨(Option.some.inj hh).symm, h1⟩
        have hs' : stepThread (fun _ => some v) s i ti =
            { s with threads := s.threads.set i ({ ti with phase := .ret (.ok x) }) } := by
          simp [stepThread, hph, hww, h.hnow, hh]
        rw [hs']
        refine ⟨h.hnow, hwal_set w d s.threads h.hwal i _ ⟨hww, hdd⟩, h.hinv,
          h.hcache, ?_, ?_, ?_, ?_, ?_⟩
        · refine forall_set _ _ _ _ (fun j tj _ hj => h.hlock j tj hj) ?_
          intro _ hL
          exact hL.elim
        · refine forall_set _ _ _ _ (fun j tj _ hj => h.hpre j tj hj) ?_
          intro _ hcall
          simp at hcall
        · refine forall_set _ _ _ _ (fun j tj _ hj => h.hfin j tj hj) ?_
          intro _ o ho
          simp at ho
        · refine forall_set _ _ _ _ (fun j tj _ hj => h.hret j tj hj) ?_
          intro _ r hr
          have hr2 : Phase.ret (Except.ok x) = Phase.ret r := hr
          cases hr2
          exact ⟨by rw [hxv.1], hxv.2⟩
        · intro h1
          rcases h.htrk h1 with hex | hc
          · exact Or.inl (exists_fin_set s.threads i ti _ hti
              (fun o ho => by rw [hph] at ho; cases ho) hex)
          · exact Or.inr hc
      | none =>
        have hs' : stepThread (fun _ => some v) s i ti =
            { s with threads := s.threads.set i ({ ti with phase := .lockEnter }) } := by
          simp [stepThread, hph, hww, h.hnow, hh]
        rw [hs']
        refine ⟨h.hnow, hwal_set w d s.threads h.hwal i _ ⟨hww, hdd⟩, h.hinv,
          h.hcache, ?_, ?_, ?_, ?_, ?_⟩
        · refine forall_set _ _ _ _ (fun j tj _ hj => h.hlock j tj hj) ?_
          intro _ hL
          exact hL.elim
        · refine forall_set _ _ _ _ (fun j tj _ hj => h.hpre j tj hj) ?_
          intro _ hcall
          simp at hcall
        · refine forall_set _ _ _ _ (fun j tj _ hj => h.hfin j tj hj) ?_
          intro _ o ho
          simp at ho
        · refine forall_set _ _ _ _ (fun j tj _ hj => h.hret j tj hj) ?_
          intro _ r hr
          simp at hr
        · intro h1
          rcases h.htrk h1 with hex | hc
          · exact Or.inl (exists_fin_set s.threads i ti _ hti
              (fun o ho => by rw [hph] at ho; cases ho) hex)
          · exact Or.inr hc
    | lockEnter =>
      cases hl : s.locks w with
      | none =>
        have hs' : stepThread (fun _ => some v) s i ti =
            { s with locks := setFun s.locks w (some none),
                     threads := s.threads.set i ({ ti with phase := .lockWait }) } := by
          simp [stepThread, hph, hww, hl]
        rw [hs']
        refine ⟨h.hnow, hwal_set w d s.threads h.hwal i _ ⟨hww, hdd⟩, h.hinv,
          h.hcache, ?_, ?_, ?_, ?_, ?_⟩
        · refine forall_set _ _ _ _ ?_ ?_
          · intro j tj _ hj hL
            have e1 := h.hlock j tj hj hL
            rw [hl] at e1
            cases e1
          · intro _ hL
            exact hL.elim
        · refine forall_set _ _ _ _ (fun j tj _ hj => h.hpre j tj hj) ?_
          intro _ hcall
          simp at hcall
        · refine forall_set _ _ _ _ (fun j tj _ hj => h.hfin j tj hj) ?_
          intro _ o ho
          simp at ho
        · refine forall_set _ _ _ _ (fun j tj _ hj => h.hret j tj hj) ?_
          intro _ r hr
          simp at hr
        · intro h1
          rcases h.htrk h1 with hex | hc
          · exact Or.inl (exists_fin_set s.threads i ti _ hti
              (fun o ho => by rw [hph] at ho; cases ho) hex)
          · exact Or.inr hc
      | some lo =>
        have hs' : stepThread (fun _ => some v) s i ti =
            { s with locks := setFun s.locks w (some lo),
                     threads := s.threads.set i ({ ti with phase := .lockWait }) } := by
          simp [stepThread, hph, hww, hl]
        rw [hs']
        refine ⟨h.hnow, hwal_set w d s.threads h.hwal i _ ⟨hww, hdd⟩, h.hinv,
          h.hcache, ?_, ?_, ?_, ?_, ?_⟩
        · refine forall_set _ _ _ _ ?_ ?_
          · intro j tj _ hj hL
            have e1 := h.hlock j tj hj hL
            rw [hl] at e1
            rw [e1] at hl ⊢
            simp [setFun, hl]
          · intro _ hL
            exact hL.elim
        · refine forall_set _ _ _ _ (fun j tj _ hj => h.hpre j tj hj) ?_
          intro _ hcall
          simp at hcall
        · refine forall_set _ _ _ _ (fun j tj _ hj => h.hfin j tj hj) ?_
          intro _ o ho
          simp at ho
        · refine forall_set _ _ _ _ (fun j tj _ hj => h.hret j tj hj) ?_
          intro _ r hr
          simp at hr
        · intro h1
          rcases h.htrk h1 with hex | hc
          · exact Or.inl (exists_fin_set s.threads i ti _ hti
              (fun o ho => by rw [hph] at ho; cases ho) hex)
          · exact Or.inr hc
    | lockWait =>
      cases hl : s.locks w with
      | none =>
        have hs' : stepThread (fun _ => some v) s i ti = s := by
          simp [stepThread, hph, hww, hl]
        rw [hs']; exact h
      | some lo =>
        cases lo with
        | none =>
          have hs' : stepThread (fun _ => some v) s i ti =
              { s with locks := setFun s.locks w (some (some i)),
                       threads := s.threads.set i ({ ti with phase := .recheck }) } := by
            simp [stepThread, hph, hww, hl]
          rw [hs']
          refine ⟨h.hnow, hwal_set w d s.threads h.hwal i _ ⟨hww, hdd⟩, h.hinv,
            h.hcache, ?_, ?_, ?_, ?_, ?_⟩
          · refine forall_set _ _ _ _ ?_ ?_
            · intro j tj _ hj hL
              have e1 := h.hlock j tj hj hL
              rw [hl] at e1
              cases Option.some.inj e1
            · intro _ _
              simp [setFun]
          · refine forall_set _ _ _ _ (fun j tj _ hj => h.hpre j tj hj) ?_
            intro _ hcall
            simp at hcall
          · refine forall_set _ _ _ _ (fun j tj _ hj => h.hfin j tj hj) ?_
            intro _ o ho
            simp at ho
          · refine forall_set _ _ _ _ (fun j tj _ hj => h.hret j tj hj) ?_
            intro _ r hr
            simp at hr
          · intro h1
            rcases h.htrk h1 with hex | hc
            · exact Or.inl (exists_fin_set s.threads i ti _ hti
                (fun o ho => by rw [hph] at ho; cases ho) hex)
            · exact Or.inr hc
        | some k =>
          have hs' : stepThread (fun _ => some v) s i ti = s := by
            simp [stepThread, hph, hww, hl]
          rw [hs']; exact h
    | recheck =>
      cases hh : hitVal s.cache w now₀ with
      | some x =>
        have hxv : x = v ∧ s.invocations = 1 := by
          rcases h.hcache with hc | ⟨hc, h1⟩
          · rw [hc] at hh; cases hh
          · rw [hc] at hh; exact ⟨(Option.some.inj hh).symm, h1⟩
        have hs' : stepThread (fun _ => some v) s i ti =
            { s with locks := setFun s.locks w (some none),
                     threads := s.threads.set i ({ ti with phase := .ret (.ok x) }) } := by
          simp [stepThread, hph, hww, h.hnow, hh]
        rw [hs']
        refine ⟨h.hnow, hwal_set w d s.threads h.hwal i _ ⟨hww, hdd⟩, h.hinv,
          h.hcache, ?_, ?_, ?_, ?_, ?_⟩
        · refine forall_set _ _ _ _ ?_ ?_
          · intro j tj hjne hj hL
            have e1 := h.hlock j tj hj hL
            have e2 := h.hlock i ti hti (by rw [hph]; exact trivial)
            have : i = j := Option.some.inj (Option.some.inj (e2.symm.trans e1))
            exact absurd this.symm hjne
          · intro _ hL
            exact hL.elim
        · refine forall_set _ _ _ _ (fun j tj _ hj => h.hpre j tj hj) ?_
          intro _ hcall
          simp at hcall
        · refine forall_set _ _ _ _ (fun j tj _ hj => h.hfin j tj hj) ?_
          intro _ o ho
          simp at ho
        · refine forall_set _ _ _ _ (fun j tj _ hj => h.hret j tj hj) ?_
          intro _ r hr
          have hr2 : Phase.ret (Except.ok x) = Phase.ret r := hr
          cases hr2
          exact ⟨by rw [hxv.1], hxv.2⟩
        · intro h1
          refine Or.inr ?_
          rw [hh, hxv.1]
      | none =>
        have hinv0 : s.invocations = 0 := by
          by_contra hne0
          have hle := h.hinv
          have h1 : s.invocations = 1 := by omega
          rcases h.htrk h1 with ⟨j, tj, o, hj, ho⟩ | hc
          · have e1 := h.hlock j tj hj (by rw [ho]; exact trivial)
            have e2 := h.hlock i ti hti (by rw [hph]; exact trivial)
            have hij : i = j := Option.some.inj (Option.some.inj (e2.symm.trans e1))
            subst hij
            rw [hti] at hj
            cases Option.some.inj hj
            rw [hph] at ho
            cases ho
          · rw [hc] at hh
            cases hh
        have hs' : stepThread (fun _ => some v) s i ti =
            { s with threads := s.threads.set i ({ ti with phase := .callRes }) } := by
          simp [stepThread, hph, hww, h.hnow, hh, hw]
        rw [hs']
        refine ⟨h.hnow, hwal_set w d s.threads h.hwal i _ ⟨hww, hdd⟩, h.hinv,
          h.hcache, ?_, ?_, ?_, ?_, ?_⟩
        · refine forall_set _ _ _ _ (fun j tj _ hj => h.hlock j tj hj) ?_
          intro _ _
          exact h.hlock i ti hti (by rw [hph]; exact trivial)
        · refine forall_set _ _ _ _ (fun j tj _ hj => h.hpre j tj hj) ?_
          intro _ _
          exact ⟨hh, hinv0⟩
        · refine forall_set _ _ _ _ (fun j tj _ hj => h.hfin j tj hj) ?_
          intro _ o ho
          simp at ho
        · refine forall_set _ _ _ _ (fun j tj _ hj => h.hret j tj hj) ?_
          intro _ r hr
          simp at hr
        · intro h1
          rw [hinv0] at h1
          cases h1
    | callRes =>
      obtain ⟨hcnone, hinv0⟩ := h.hpre i ti hti hph
      have hctx : ctxExpired s.now ti.deadline = false := by
        rw [h.hnow, hdd]; exact hd
      have hs' : stepThread (fun _ => some v) s i ti =
          { s with invocations := s.invocations + 1,
                   threads := s.threads.set i
                     ({ ti with phase := .finishing (.ok v) }) } := by
        simp [stepThread, hph, hctx]
      rw [hs']
      have hilen : i < s.threads.length := by
        have h0 := (List.getElem?_eq_some.mp hti).1
        simpa using h0
      refine ⟨h.hnow, hwal_set w d s.threads h.hwal i _ ⟨hww, hdd⟩,
        by simp [hinv0], Or.inl hcnone, ?_, ?_, ?_, ?_, ?_⟩
      · refine forall_set _ _ _ _ (fun j tj _ hj => h.hlock j tj hj) ?_
        intro _ _
        exact h.hlock i ti hti (by rw [hph]; exact trivial)
      · refine forall_set _ _ _ _ ?_ ?_
        · intro j tj hjne hj hcall
          have e1 := h.hlock j tj hj (by rw [hcall]; exact trivial)
          have e2 := h.hlock i ti hti (by rw [hph]; exact trivial)
          have : i = j := Option.some.inj (Option.some.inj (e2.symm.trans e1))
          exact absurd this.symm hjne
        · intro _ hcall
          simp at hcall
      · refine forall_set _ _ _ _ ?_ ?_
        · intro j tj hjne hj o ho
          have e1 := h.hlock j tj hj (by rw [ho]; exact trivial)
          have e2 := h.hlock i ti hti (by rw [hph]; exact trivial)
          have : i = j := Option.some.inj (Option.some.inj (e2.symm.trans e1))
          exact absurd this.symm hjne
        · intro _ o ho
          have ho2 : Phase.finishing (Except.ok v) = Phase.finishing o := ho
          cases ho2
          exact ⟨rfl, by simp [hinv0]⟩
      · refine forall_set _ _ _ _ ?_ ?_
        · intro j tj _ hj r hr
          have := (h.hret j tj hj r hr).2
          rw [hinv0] at this
          cases this
        · intro _ r hr
          simp at hr
      · intro _
        refine Or.inl ⟨i, _, .ok v, List.getElem?_set_self hilen, rfl⟩
    | finishing o =>
      obtain ⟨hov, hinv1⟩ := h.hfin i ti hti o hph
      subst hov
      have hs' : stepThread (fun _ => some v) s i ti =
          { s with cache := setFun s.cache w (some (v, now₀ + ttlSeconds)),
                   locks := setFun s.locks w (some none),
                   threads := s.threads.set i ({ ti with phase := .ret (.ok v) }) } := by
        simp [stepThread, hph, hww, h.hnow]
      rw [hs']
      have hcache' : hitVal (setFun s.cache w (some (v, now₀ + ttlSeconds))) w now₀ =
          some v := by
        simp [hitVal, setFun]
      refine ⟨h.hnow, hwal_set w d s.threads h.hwal i _ ⟨hww, hdd⟩, h.hinv,
        Or.inr ⟨hcache', hinv1⟩, ?_, ?_, ?_, ?_, ?_⟩
      · refine forall_set _ _ _ _ ?_ ?_
        · intro j tj hjne hj hL
          have e1 := h.hlock j tj hj hL
          have e2 := h.hlock i ti hti (by rw [hph]; exact trivial)
          have : i = j := Option.some.inj (Option.some.inj (e2.symm.trans e1))
          exact absurd this.symm hjne
        · intro _ hL
          exact hL.elim
      · refine forall_set _ _ _ _ ?_ ?_
        · intro j tj hjne hj hcall
          have e1 := h.hlock j tj hj (by rw [hcall]; exact trivial)
          have e2 := h.hlock i ti hti (by rw [hph]; exact trivial)
          have : i = j := Option.some.inj (Option.some.inj (e2.symm.trans e1))
          exact absurd this.symm hjne
        · intro _ hcall
          simp at hcall
      · refine forall_set _ _ _ _ ?_ ?_
        · intro j tj hjne hj o' ho
          have e1 := h.hlock j tj hj (by rw [ho]; exact trivial)
          have e2 := h.hlock i ti hti (by rw [hph]; exact trivial)
          have : i = j := Option.some.inj (Option.some.inj (e2.symm.trans e1))
          exact absurd this.symm hjne
        · intro _ o' ho
          simp at ho
      · refine forall_set _ _ _ _ (fun j tj _ hj => h.hret j tj hj) ?_
        intro _ r hr
        have hr2 : Phase.ret (Except.ok v) = Phase.ret r := hr
        cases hr2
        exact ⟨rfl, hinv1⟩
      · intro _
        exact Or.inr hcache'
    | ret r =>
      have hs' : stepThread (fun _ => some v) s i ti = s := by
        simp [stepThread, hph]
      rw [hs']; exact h

/-- Machine invariant when every caller targets wallet `w` and the
resolver persistently fails: the entry table never holds a live entry
for `w`, and every caller that has completed its upstream call, or has
returned, carries the upstream error. -/
structure FInv (w : String) (d : Option Nat) (now₀ : Nat) (s : CState) : Prop where
  hnow : s.now = now₀
  hwal : ∀ t ∈ s.threads, t.wallet = w ∧ t.deadline = d
  hcache : hitVal s.cache w now₀ = none
  hfin : ∀ t ∈ s.threads, ∀ (o : Except GetErr Nat),
    t.phase = .finishing o → o = .error .upstreamErr
  hret : ∀ t ∈ s.threads, ∀ (r : Except GetErr Nat),
    t.phase = .ret r → r = .error .upstreamErr

theorem FInv_step (w : String) (d : Option Nat) (now₀ : Nat)
    (hw : validKey w = true) (hd : ctxExpired now₀ d = false)
    (s : CState) (i : Nat) (h : FInv w d now₀ s) :
    FInv w d now₀ (cstep (fun _ => none) s (.thr i)) := by
  cases hti : s.threads[i]? with
  | none =>
    have hs : cstep (fun _ => none) s (.thr i) = s := by simp [cstep, hti]
    rw [hs]; exact h
  | some ti =>
    have hstep : cstep (fun _ => none) s (.thr i) =
        stepThread (fun _ => none) s i ti := by
      simp [cstep, hti]
    rw [hstep]
    have hmem := List.getElem?_mem hti
    obtain ⟨hww, hdd⟩ := h.hwal ti hmem
    have keep : ∀ (u : CThread),
        (∀ (o : Except GetErr Nat), u.phase = .finishing o → o = .error .upstreamErr) →
        (∀ (r : Except GetErr Nat), u.phase = .ret r → r = .error .upstreamErr) →
        (∀ t ∈ s.threads.set i u, ∀ (o : Except GetErr Nat),
          t.phase = .finishing o → o = .error .upstreamErr) ∧
        (∀ t ∈ s.threads.set i u, ∀ (r : Except GetErr Nat),
          t.phase = .ret r → r = .error .upstreamErr) := by
      intro u hufin huret
      constructor
      · intro t ht o ho
        rcases List.mem_or_eq_of_mem_set ht with h1 | h1
        · exact h.hfin t h1 o ho
        · rw [h1] at ho; exact hufin o ho
      · intro t ht r hr
        rcases List.mem_or_eq_of_mem_set ht with h1 | h1
        · exact h.hret t h1 r hr
        · rw [h1] at hr; exact huret r hr
    cases hph : ti.phase with
    | checkFast =>
      have hs' : stepThread (fun _ => none) s i ti =
          { s with threads := s.threads.set i ({ ti with phase := .lockEnter }) } := by
        simp [stepThread, hph, hww, h.hnow, h.hcache]
      rw [hs']
      obtain ⟨k1, k2⟩ := keep ({ ti with phase := .lockEnter })
        (fun o ho => by simp at ho) (fun r hr => by simp at hr)
      exact ⟨h.hnow, hwal_set w d s.threads h.hwal i _ ⟨hww, hdd⟩, h.hcache, k1, k2⟩
    | lockEnter =>
      cases hl : s.locks w with
      | none =>
        have hs' : stepThread (fun _ => none) s i ti =
            { s with locks := setFun s.locks w (some none),
                     threads := s.threads.set i ({ ti with phase := .lockWait }) } := by
          simp [stepThread, hph, hww, hl]
        rw [hs']
        obtain ⟨k1, k2⟩ := keep ({ ti with phase := .lockWait })
          (fun o ho => by simp at ho) (fun r hr => by simp at hr)
        exact ⟨h.hnow, hwal_set w d s.threads h.hwal i _ ⟨hww, hdd⟩, h.hcache, k1, k2⟩
      | some lo =>
        have hs' : stepThread (fun _ => none) s i ti =
            { s with locks := setFun s.locks w (some lo),
                     threads := s.threads.set i ({ ti with phase := .lockWait }) } := by
          simp [stepThread, hph, hww, hl]
        rw [hs']
        obtain ⟨k1, k2⟩ := keep ({ ti with phase := .lockWait })
          (fun o ho => by simp at ho) (fun r hr => by simp at hr)
        exact ⟨h.hnow, hwal_set w d s.threads h.hwal i _ ⟨hww, hdd⟩, h.hcache, k1, k2⟩
    | lockWait =>
      cases hl : s.locks w with
      | none =>
        have hs' : stepThread (fun _ => none) s i ti = s := by
          simp [stepThread, hph, hww, hl]
        rw [hs']; exact h
      | some lo =>
        cases lo with
        | none =>
          have hs' : stepThread (fun _ => none) s i ti =
              { s with locks := setFun s.locks w (some (some i)),
                       threads := s.threads.set i ({ ti with phase := .recheck }) } := by
            simp [stepThread, hph, hww, hl]
          rw [hs']
          obtain ⟨k1, k2⟩ := keep ({ ti with phase := .recheck })
            (fun o ho => by simp at ho) (fun r hr => by simp at hr)
          exact ⟨h.hnow, hwal_set w d s.threads h.hwal i _ ⟨hww, hdd⟩, h.hcache, k1, k2⟩
        | some k =>
          have hs' : stepThread (fun _ => none) s i ti = s := by
            simp [stepThread, hph, hww, hl]
          rw [hs']; exact h
    | recheck =>
      have hs' : stepThread (fun _ => none) s i ti =
          { s with threads := s.threads.set i ({ ti with phase := .callRes }) } := by
        simp [stepThread, hph, hww, h.hnow, h.hcache, hw]
      rw [hs']
      obtain ⟨k1, k2⟩ := keep ({ ti with phase := .callRes })
        (fun o ho => by simp at ho) (fun r hr => by simp at hr)
      exact ⟨h.hnow, hwal_set w d s.threads h.hwal i _ ⟨hww, hdd⟩, h.hcache, k1, k2⟩
    | callRes =>
      have hctx : ctxExpired s.now ti.deadline = false := by
        rw [h.hnow, hdd]; exact hd
      have hs' : stepThread (fun _ => none) s i ti =
          { s with invocations := s.invocations + 1,
                   threads := s.threads.set i
                     ({ ti with phase := .finishing (.error .upstreamErr) }) } := by
        simp [stepThread, hph, hctx]
      rw [hs']
      obtain ⟨k1, k2⟩ := keep ({ ti with phase := .finishing (.error .upstreamErr) })
        (fun o ho => by
          have ho2 : Phase.finishing (Except.error GetErr.upstreamErr) =
              Phase.finishing o := ho
          cases ho2
          rfl)
        (fun r hr => by simp at hr)
      exact ⟨h.hnow, hwal_set w d s.threads h.hwal i _ ⟨hww, hdd⟩, h.hcache, k1, k2⟩
    | finishing o =>
      have ho := h.hfin ti hmem o hph
      subst ho
      have hs' : stepThread (fun _ => none) s i ti =
          { s with locks := setFun s.locks w (some none),
                   threads := s.threads.set i
                     ({ ti with phase := .ret (.error .upstreamErr) }) } := by
        simp [stepThread, hph, hww]
      rw [hs']
      obtain ⟨k1, k2⟩ := keep ({ ti with phase := .ret (.error .upstreamErr) })
        (fun o ho => by simp at ho)
        (fun r hr => by
          have hr2 : Phase.ret (Except.error GetErr.upstreamErr) = Phase.ret r := hr
          cases hr2
          rfl)
      exact ⟨h.hnow, hwal_set w d s.threads h.hwal i _ ⟨hww, hdd⟩, h.hcache, k1, k2⟩
    | ret r =>
      have hs' : stepThread (fun _ => none) s i ti = s := by
        simp [stepThread, hph]
      rw [hs']; exact h

theorem SInv_run (w : String) (v : Nat) (d : Option Nat) (now₀ : Nat)
    (hw : validKey w = true) (hd : ctxExpired now₀ d = false) :
    ∀ (σ : List CAct), noTick σ = true → ∀ s, SInv w v d now₀ s →
      SInv w v d now₀ (crun (fun _ => some v) s σ)
  | [], _, _, h => h
  | a :: σ, hσ, s, h => by
    have hparts : (a != CAct.tick) = true ∧ noTick σ = true := by
      simpa [noTick] using hσ
    cases a with
    | tick => simp at hparts
    | thr i =>
      exact SInv_run w v d now₀ hw hd σ hparts.2 _ (SInv_step w v d now₀ hw hd s i h)

theorem FInv_run (w : String) (d : Option Nat) (now₀ : Nat)
    (hw : validKey w = true) (hd : ctxExpired now₀ d = false) :
    ∀ (σ : List CAct), noTick σ = true → ∀ s, FInv w d now₀ s →
      FInv w d now₀ (crun (fun _ => none) s σ)
  | [], _, _, h => h
  | a :: σ, hσ, s, h => by
    have hparts : (a != CAct.tick) = true ∧ noTick σ = true := by
      simpa [noTick] using hσ
    cases a with
    | tick => simp at hparts
    | thr i =>
      exact FInv_run w d now₀ hw hd σ hparts.2 _ (FInv_step w d now₀ hw hd s i h)

theorem SInv_init (w : String) (v : Nat) (d : Option Nat) (now₀ n : Nat)
    (cache₀ : String → Option (Nat × Nat)) (locks₀ : String → Option (Option Nat))
    (hc : hitVal cache₀ w now₀ = none) :
    SInv w v d now₀ (cinit n w d cache₀ locks₀ now₀) := by
  refine ⟨rfl, ?_, Nat.zero_le 1, Or.inl hc, ?_, ?_, ?_, ?_, ?_⟩
  · intro t ht
    rw [List.eq_of_mem_replicate ht]
    exact ⟨rfl, rfl⟩
  · intro i ti hti hL
    rw [List.eq_of_mem_replicate (List.getElem?_mem hti)] at hL
    exact hL.elim
  · intro i ti hti hcall
    rw [List.eq_of_mem_replicate (List.getElem?_mem hti)] at hcall
    simp at hcall
  · intro i ti hti o ho
    rw [List.eq_of_mem_replicate (List.getElem?_mem hti)] at ho
    simp at ho
  · intro i ti hti r hr
    rw [List.eq_of_mem_replicate (List.getElem?_mem hti)] at hr
    simp at hr
  · intro h1
    simp [cinit] at h1

theorem FInv_init (w : String) (d : Option Nat) (now₀ n : Nat)
    (cache₀ : String → Option (Nat × Nat)) (locks₀ : String → Option (Option Nat))
    (hc : hitVal cache₀ w now₀ = none) :
    FInv w d now₀ (cinit n w d cache₀ locks₀ now₀) := by
  refine ⟨rfl, ?_, hc, ?_, ?_⟩
  · intro t ht
    rw [List.eq_of_mem_replicate ht]
    exact ⟨rfl, rfl⟩
  · intro t ht o ho
    rw [List.eq_of_mem_replicate ht] at ho
    simp at ho
  · intro t ht r hr
    rw [List.eq_of_mem_replicate ht] at hr
    simp at hr

/-- Two callers for oneKey over empty tables at clock 0. -/
def c1Init : CState := cinit 2 oneKey none (fun _ => none) (fun _ => none) 0

/-- Run caller 0 to completion, then caller 1 to completion. -/
def c1Sched : List CAct := List.replicate 7 (CAct.thr 0) ++ List.replicate 7 (CAct.thr 1)

/-- Claim C1 counterexample: with a persistently failing resolver, two
concurrent callers on the same uncached key both complete, the first
call fails — and the upstream resolver is invoked twice, not once: the
failure writes nothing to the cache, so the second caller re-checks,
misses, and issues its own upstream call.  This refutes the claim that
the resolver is invoked exactly once when that one call fails. -/
theorem single_flight_failure_counterexample :
    allDone (crun (fun _ => none) c1Init c1Sched) = true ∧
    (crun (fun _ => none) c1Init c1Sched).invocations = 2 ∧
    ¬ (crun (fun _ => none) c1Init c1Sched).invocations = 1 := by
  decide

/-- Claim C1 (amended): for N ≥ 2 concurrent callers of `getBalance` on
the same uncached valid key, under any interleaving within one instant:
if the resolver succeeds with value v, the upstream resolver is invoked
exactly once and every caller that completes returns v; if the resolver
persistently fails, every caller that completes returns the upstream
failure — each caller that reaches the upstream step retries the call
itself (so the resolver can be invoked up to N times, once per caller)
— and nothing is ever cached, so no caller receives a stale or wrong
value. -/
theorem getBalance_single_flight
    (w : String) (v n : Nat) (d : Option Nat)
    (cache₀ : String → Option (Nat × Nat)) (locks₀ : String → Option (Option Nat))
    (now₀ : Nat) (σ₁ σ₂ : List CAct)
    (hw : validKey w = true) (hn : 2 ≤ n)
    (hc : hitVal cache₀ w now₀ = none) (hd : ctxExpired now₀ d = false)
    (hσ₁ : noTick σ₁ = true) (hσ₂ : noTick σ₂ = true)
    (h₁ : allDone (crun (fun _ => some v) (cinit n w d cache₀ locks₀ now₀) σ₁) = true)
    (h₂ : allDone (crun (fun _ => none) (cinit n w d cache₀ locks₀ now₀) σ₂) = true) :
    ((crun (fun _ => some v) (cinit n w d cache₀ locks₀ now₀) σ₁).invocations = 1 ∧
     (∀ t ∈ (crun (fun _ => some v) (cinit n w d cache₀ locks₀ now₀) σ₁).threads,
       t.phase = .ret (.ok v))) ∧
    ((∀ t ∈ (crun (fun _ => none) (cinit n w d cache₀ locks₀ now₀) σ₂).threads,
       t.phase = .ret (.error .upstreamErr)) ∧
     hitVal (crun (fun _ => none) (cinit n w d cache₀ locks₀ now₀) σ₂).cache w now₀ =
       none) := by
  have hS := SInv_run w v d now₀ hw hd σ₁ hσ₁ _
    (SInv_init w v d now₀ n cache₀ locks₀ hc)
  have hF := FInv_run w d now₀ hw hd σ₂ hσ₂ _
    (FInv_init w d now₀ n cache₀ locks₀ hc)
  have hretS : ∀ t ∈ (crun (fun _ => some v) (cinit n w d cache₀ locks₀ now₀) σ₁).threads,
      t.phase = .ret (.ok v) := by
    intro t ht
    rw [allDone, List.all_eq_true] at h₁
    have hd1 := h₁ t ht
    have hr : ∃ r, t.phase = .ret r := by
      cases hp : t.phase <;> simp [hp, isRet] at hd1 ⊢
    obtain ⟨r, hr⟩ := hr
    obtain ⟨j, hj⟩ := List.mem_iff_getElem?.mp ht
    obtain ⟨hrv, _⟩ := hS.hret j t hj r hr
    rw [hr, hrv]
  refine ⟨⟨?_, hretS⟩, ?_, hF.hcache⟩
  · have hlen : (crun (fun _ => some v)
        (cinit n w d cache₀ locks₀ now₀) σ₁).threads.length = n := by
      rw [crun_threads_length]
      simp [cinit]
    have hpos : 0 < (crun (fun _ => some v)
        (cinit n w d cache₀ locks₀ now₀) σ₁).threads.length := by omega
    obtain ⟨t0, ht0⟩ : ∃ t0, (crun (fun _ => some v)
        (cinit n w d cache₀ locks₀ now₀) σ₁).threads[0]? = some t0 :=
      ⟨_, List.getElem?_eq_getElem hpos⟩
    have hmem0 := List.getElem?_mem ht0
    have := hretS t0 hmem0
    exact (hS.hret 0 t0 ht0 (.ok v) this).2
  · intro t ht
    rw [allDone, List.all_eq_true] at h₂
    have hd2 := h₂ t ht
    have hr : ∃ r, t.phase = .ret r := by
      cases hp : t.phase <;> simp [hp, isRet] at hd2 ⊢
    obtain ⟨r, hr⟩ := hr
    have := hF.hret t ht r hr
    rw [hr, this]

/-- Witness for getBalance_single_flight: two callers on oneKey, run
sequentially by c1Sched, once against a succeeding resolver and once
against a failing one. -/
theorem getBalance_single_flight_witness :
    (validKey oneKey = true ∧ 2 ≤ 2 ∧
     hitVal (fun _ => none) oneKey 0 = none ∧
     ctxExpired 0 none = false ∧
     noTick c1Sched = true ∧
     allDone (crun (fun _ => some 42) (cinit 2 oneKey none (fun _ => none)
       (fun _ => none) 0) c1Sched) = true ∧
     allDone (crun (fun _ => none) (cinit 2 oneKey none (fun _ => none)
       (fun _ => none) 0) c1Sched) = true) ∧
    (((crun (fun _ => some 42) (cinit 2 oneKey none (fun _ => none)
        (fun _ => none) 0) c1Sched).invocations = 1 ∧
      (∀ t ∈ (crun (fun _ => some 42) (cinit 2 oneKey none (fun _ => none)
        (fun _ => none) 0) c1Sched).threads, t.phase = .ret (.ok 42))) ∧
     ((∀ t ∈ (crun (fun _ => none) (cinit 2 oneKey none (fun _ => none)
        (fun _ => none) 0) c1Sched).threads,
        t.phase = .ret (.error .upstreamErr)) ∧
      hitVal (crun (fun _ => none) (cinit 2 oneKey none (fun _ => none)
        (fun _ => none) 0) c1Sched).cache oneKey 0 = none)) :=
  ⟨⟨by decide, by decide, rfl, rfl, by decide, by decide, by decide⟩,
   getBalance_single_flight oneKey 42 2 none (fun _ => none) (fun _ => none) 0
     c1Sched c1Sched (by decide) (by decide) rfl rfl (by decide) (by decide)
     (by decide) (by decide)⟩
